import Mathlib

/-!
Shallow embedding of the storj segment-verification pipeline:
`cmd/tools/segment-verify/process.go` (Verify, VerifyBatches,
convertAliasToNodeURL, GetNodeInfo) and
`satellite/metabase/rangedloop/providerdb.go` (CreateRanges, Iterate).

Go maps become functions `Int → Option _`, Go errors become `Option GoErr`
(`nil` = `none`), and `Error.Wrap` becomes `errWrap` (which, like
`errs.Class.Wrap`, maps `nil` to `nil`).  External collaborators
(the overlay directory, the catalog's alias table, the per-piece verifier)
are oracle functions supplied as parameters.
-/

namespace SegVerify

/-- `metabase.NodeAlias` is `int32`; we model it as `Int`. -/
abbrev NodeAlias := Int

/-- Go `error` values: either a base error or a wrapped one (`Error.Wrap`). -/
inductive GoErr where
  | oops : Nat → GoErr
  | wrapped : GoErr → GoErr
deriving DecidableEq, Repr

/-- `Error.Wrap` on a possibly-nil Go error: `errs.Class.Wrap(nil)` is `nil`. -/
def errWrap : Option GoErr → Option GoErr :=
  Option.map GoErr.wrapped

/-- `storj.NodeURL`: node id plus address. -/
structure NodeURL where
  id : Nat
  address : String
deriving DecidableEq, Repr

/-- The zero value `storj.NodeURL\x7b\x7d`. -/
def zeroNodeURL : NodeURL := ⟨0, ""⟩

/-- Result of `overlay.Get`: node id, address and version. -/
structure OverlayInfo where
  id : Nat
  address : String
  version : String
deriving DecidableEq, Repr

/-- `NodeInfo` from process.go: version and node URL. -/
structure NodeInfo where
  version : String
  nodeURL : NodeURL
deriving DecidableEq, Repr

/-- The zero value `NodeInfo\x7b\x7d`. -/
def zeroNodeInfo : NodeInfo := ⟨"", zeroNodeURL⟩

/-- `metabase.AliasPiece`: (node alias, piece number). -/
structure AliasPiece where
  nodeAlias : NodeAlias
  number : Nat
deriving DecidableEq, Repr

/-- A segment as used by process.go: its alias pieces and the mutable
`Status.Retry` field (an `int32`, modelled as `Int`). -/
structure Segment where
  aliasPieces : List AliasPiece
  retry : Int
deriving DecidableEq, Repr

/-- Configuration fields of the service read by process.go. -/
structure Config where
  check : Int
  maxOffline : Int
deriving DecidableEq, Repr

/-- The alias-resolution caches of the service: `aliasToNodeURL`,
`aliasMap` and `nodesVersionMap`. -/
structure ResolverState where
  aliasToNodeURL : NodeAlias → Option NodeURL
  aliasMap : NodeAlias → Option Nat
  nodesVersionMap : NodeAlias → Option String

/-- Full mutable state of the service during `Verify`: resolution caches,
the online-node set, the per-alias offline-strike counters (Go `int`),
and the heap of segments reachable through the `*Segment` pointers. -/
structure ServiceState where
  resolver : ResolverState
  onlineNodes : List NodeAlias
  offlineCount : NodeAlias → Int
  heap : List Segment

/-- External collaborators used during alias resolution:
`metabase.LatestNodesAliasMap` (a map and an error) and `overlay.Get`. -/
structure ResolveEnv where
  latestMap : NodeAlias → Option Nat
  latestErr : Option GoErr
  overlayGet : Nat → Except GoErr OverlayInfo

/-- Point update of a map `Int → Option β`. -/
def updateF {β : Type} (f : NodeAlias → Option β) (k : NodeAlias) (v : Option β) :
    NodeAlias → Option β :=
  fun x => if x = k then v else f x

/-- Point update of an `Int`-valued map. -/
def updateC (f : NodeAlias → Int) (k : NodeAlias) (v : Int) : NodeAlias → Int :=
  fun x => if x = k then v else f x

/-- `NodeAliasSet.Remove`: drop an alias from the online set. -/
def removeAlias (l : List NodeAlias) (a : NodeAlias) : List NodeAlias :=
  l.filter (fun x => x ≠ a)

/-- `convertAliasToNodeURL` from process.go, translated statement by
statement.  Note the source's inner `if !ok` after
`LatestNodesAliasMap`: `ok` is still the (false) result of the local
`aliasMap.Node` lookup, so that branch always returns
`storj.NodeURL\x7b\x7d, Error.Wrap(err)` where `err` is the fetch error —
the refreshed-table retry below it is unreachable. -/
def convertAliasToNodeURL (env : ResolveEnv) (rs : ResolverState) (nodeAlias : NodeAlias) :
    NodeURL × Option GoErr × ResolverState :=
  match rs.aliasToNodeURL nodeAlias with
  | some nodeURL => (nodeURL, none, rs)
  | none =>
    match rs.aliasMap nodeAlias with
    | none =>
      -- latest, err := LatestNodesAliasMap(ctx); if !ok -- always taken here
      (zeroNodeURL, errWrap env.latestErr, rs)
    | some nodeID =>
      match env.overlayGet nodeID with
      | .error e => (zeroNodeURL, errWrap (some e), rs)
      | .ok info =>
        let nodeURL : NodeURL := ⟨info.id, info.address⟩
        let rs' : ResolverState :=
          { rs with
            nodesVersionMap := updateF rs.nodesVersionMap nodeAlias (some info.version),
            aliasToNodeURL := updateF rs.aliasToNodeURL nodeAlias (some nodeURL) }
        (nodeURL, none, rs')

/-- `GetNodeInfo` from process.go. -/
def getNodeInfo (env : ResolveEnv) (rs : ResolverState) (nodeAlias : NodeAlias) :
    NodeInfo × Option GoErr × ResolverState :=
  match convertAliasToNodeURL env rs nodeAlias with
  | (_, some e, rs₁) => (zeroNodeInfo, some e.wrapped, rs₁)
  | (nodeURL, none, rs₁) =>
    match rs₁.nodesVersionMap nodeAlias with
    | some version => (⟨version, nodeURL⟩, none, rs₁)
    | none =>
      match env.overlayGet nodeURL.id with
      | .error e => (zeroNodeInfo, some e.wrapped, rs₁)
      | .ok info =>
        let rs₂ : ResolverState :=
          { rs₁ with nodesVersionMap := updateF rs₁.nodesVersionMap nodeAlias (some info.version) }
        (⟨info.version, nodeURL⟩, none, rs₂)

/-- An error returned by the external per-piece verifier; `offline` is
whether `ErrNodeOffline.Has(err)` holds. -/
structure VerifyErr where
  offline : Bool
  tag : Nat
deriving DecidableEq, Repr

/-- The node-health bookkeeping performed by `VerifyBatches` (under the
mutex) after the verifier returns `(verifiedCount, err)` for a batch on
node `nodeAlias`, translated from process.go lines 95–113. -/
def applyVerifyResult (cfg : Config) (st : ServiceState) (nodeAlias : NodeAlias)
    (verifiedCount : Int) (err : Option VerifyErr) : ServiceState :=
  match err with
  | some e =>
    if e.offline then
      if verifiedCount = 0 then
        { st with onlineNodes := removeAlias st.onlineNodes nodeAlias }
      else
        let st₁ :=
          { st with offlineCount := updateC st.offlineCount nodeAlias (st.offlineCount nodeAlias + 1) }
        if 0 < cfg.maxOffline ∧ cfg.maxOffline ≤ st₁.offlineCount nodeAlias then
          { st₁ with onlineNodes := removeAlias st₁.onlineNodes nodeAlias }
        else st₁
    else
      st
  | none =>
    if 0 < st.offlineCount nodeAlias then
      { st with offlineCount := updateC st.offlineCount nodeAlias (st.offlineCount nodeAlias - 1) }
    else st

/-- One item of a batch: (index of the segment in the input list, piece number). -/
abbrev BatchItem := Nat × Nat

/-- `Batch` from segment-verify: a node alias together with the items to
check on that node. -/
structure Batch where
  nodeAlias : NodeAlias
  items : List BatchItem
deriving DecidableEq, Repr

/-- Append one alias piece to the batch keyed by its alias, creating the
batch at the end on first sight of the alias. -/
def addPieceToBatches (bs : List Batch) (a : NodeAlias) (it : BatchItem) : List Batch :=
  match bs with
  | [] => [⟨a, [it]⟩]
  | b :: rest =>
    if b.nodeAlias = a then ⟨b.nodeAlias, b.items ++ [it]⟩ :: rest
    else b :: addPieceToBatches rest a it

/-- Modelled from the spec: `CreateBatches` (segment-verify's service.go is
not among the sources).  Spec §4.3: for every `AliasPiece` across every
input segment, append it to the batch keyed by that alias, creating the
batch on first sight; batch order among aliases is first-occurrence order,
item order within a batch is input traversal order, no deduplication.
The spec gives it no failure mode, so it is total here. -/
def createBatches (heap : List Segment) (idxs : List Nat) : List Batch :=
  idxs.foldl
    (fun bs i =>
      ((heap.getD i ⟨[], 0⟩).aliasPieces).foldl
        (fun bs' p => addPieceToBatches bs' p.nodeAlias (i, p.number)) bs)
    []

/-- Map over a list with the element's index, starting at `k`. -/
def mapIdxFrom {α : Type} (f : Nat → α → α) : Nat → List α → List α
  | _, [] => []
  | k, x :: xs => f k x :: mapIdxFrom f (k + 1) xs

/-- Read the `Status.Retry` field of the segment at index `i` of the heap. -/
def retriesOf (heap : List Segment) : Nat → Int :=
  fun i => ((heap.get? i).map Segment.retry).getD 0

/-- Replace every segment's `Status.Retry` field by `f index`. -/
def setRetries (heap : List Segment) (f : Nat → Int) : List Segment :=
  mapIdxFrom (fun i s => { s with retry := f i }) 0 heap

/-- The external per-piece verifier (`service.verifier.Verify`): given the
batch's node alias, the resolved node info, the `ignoreThrottle` flag and
the batch items, it returns the new per-segment retry assignment (it
mutates segment statuses through the `*Segment` pointers), the count of
verified pieces and an optional error. -/
def Verifier : Type :=
  NodeAlias → NodeInfo → Bool → List BatchItem → (Nat → Int) →
    (Nat → Int) × Int × Option VerifyErr

/-- `VerifyBatches` from process.go.  For each batch in order: resolve the
batch's alias with `GetNodeInfo`, returning the wrapped error on failure;
otherwise run the verifier (with `ignoreThrottle` set when the alias is a
priority node) and apply the node-health bookkeeping.  The concurrent
goroutines of the source are linearised in batch order; the health updates
they perform are serialised by the mutex in the source and commute with
alias resolution, which reads and writes disjoint state. -/
def verifyBatchesGo (cfg : Config) (env : ResolveEnv) (prio : NodeAlias → Bool)
    (V : Verifier) : ServiceState → List Batch → Option GoErr × ServiceState
  | st, [] => (none, st)
  | st, b :: rest =>
    match getNodeInfo env st.resolver b.nodeAlias with
    | (_, some e, rs₁) => (some e.wrapped, { st with resolver := rs₁ })
    | (info, none, rs₁) =>
      let ignoreThrottle := prio b.nodeAlias
      let out := V b.nodeAlias info ignoreThrottle b.items (retriesOf st.heap)
      let st₂ : ServiceState := { st with resolver := rs₁, heap := setRetries st.heap out.1 }
      verifyBatchesGo cfg env prio V
        (applyVerifyResult cfg st₂ b.nodeAlias out.2.1 out.2.2) rest

/-- The alias-resolution skeleton of `VerifyBatches`, written from the
spec's words: run `GetNodeInfo` for each batch in order, threading the
resolution caches, and stop at the first failure, whose wrapped error is
the result.  `VerifyBatches` is proved to return exactly this error,
whatever the verifier does. -/
def resolveSequence (env : ResolveEnv) : ResolverState → List Batch → Option GoErr
  | _, [] => none
  | rs, b :: rest =>
    match getNodeInfo env rs b.nodeAlias with
    | (_, some e, _) => some e.wrapped
    | (_, none, rs₁) => resolveSequence env rs₁ rest

/-- Go `int32(n)` conversion of an `int`: two's-complement truncation. -/
def int32wrap (n : Int) : Int := (n + 2 ^ 31) % 2 ^ 32 - 2 ^ 31

/-- The retry-budget initialisation loop at the top of `Verify`:
`retryCount := config.Check; if retryCount == 0 \x7b retryCount =
len(segment.AliasPieces) \x7d; segment.Status.Retry = int32(retryCount)`. -/
def initRetries (check : Int) (heap : List Segment) : List Segment :=
  heap.map (fun s =>
    let retryCount : Int := if check = 0 then (s.aliasPieces.length : Int) else check
    { s with retry := int32wrap retryCount })

/-- Modelled from the spec: `removePriorityPieces` (segment-verify's
service.go is not among the sources).  Spec §4.4 step 4: strip any pieces
belonging to nodes in the priority set. -/
def removePriorityPieces (prio : NodeAlias → Bool) (s : Segment) : Segment :=
  { s with aliasPieces := s.aliasPieces.filter (fun p => prio p.nodeAlias = false) }

/-- The retry-preparation loop of `Verify`: reverse the segment's
`AliasPieces` slice in place, then remove priority pieces. -/
def prepRetrySegment (prio : NodeAlias → Bool) (s : Segment) : Segment :=
  removePriorityPieces prio { s with aliasPieces := s.aliasPieces.reverse }

/-- Apply the retry preparation to exactly the segments whose index is in
`idxs`, leaving the others untouched. -/
def prepRetryHeap (prio : NodeAlias → Bool) (heap : List Segment) (idxs : List Nat) :
    List Segment :=
  mapIdxFrom (fun i s => if idxs.contains i then prepRetrySegment prio s else s) 0 heap

/-- The retry-segment collection loop of `Verify`: the indices of the
segments whose `Status.Retry` is still greater than zero. -/
def retryIndices (st₂ : ServiceState) : List Nat :=
  (List.range st₂.heap.length).filter (fun i => 0 < retriesOf st₂.heap i)

/-- The state after the retry-preparation loop of `Verify`: every
retry-eligible segment's piece list reversed and stripped of priority
pieces. -/
def prepState (prio : NodeAlias → Bool) (st₂ : ServiceState) : ServiceState :=
  { st₂ with heap := prepRetryHeap prio st₂.heap (retryIndices st₂) }

/-- The part of `Verify` after the first `VerifyBatches` call returns nil:
collect the segments with `Status.Retry > 0`; if there are none, or
`config.Check <= 0`, return nil with no further pass; otherwise reverse and
priority-filter their piece lists, re-batch them, and run `VerifyBatches`
once more.  The third component records the segment-index lists submitted
to batching and verification by this phase. -/
def verifySecondPhase (cfg : Config) (env : ResolveEnv) (prio : NodeAlias → Bool)
    (V : Verifier) (st₂ : ServiceState) : Option GoErr × ServiceState × List (List Nat) :=
  if (retryIndices st₂).isEmpty then (none, st₂, [])
  else if cfg.check ≤ 0 then (none, st₂, [])
  else
    (errWrap (verifyBatchesGo cfg env prio V (prepState prio st₂)
        (createBatches (prepState prio st₂).heap (retryIndices st₂))).1,
      (verifyBatchesGo cfg env prio V (prepState prio st₂)
        (createBatches (prepState prio st₂).heap (retryIndices st₂))).2,
      [retryIndices st₂])

/-- The service state after the retry-budget initialisation loop at the
top of `Verify`. -/
def firstPassState (cfg : Config) (st : ServiceState) : ServiceState :=
  { st with heap := initRetries cfg.check st.heap }

/-- `Verify` from process.go.  Initialise every segment's retry budget,
batch and verify all segments, and, unless that pass returned an error,
run the second phase.  The third component records, in order, the
segment-index lists submitted to batching and verification. -/
def verifyGo (cfg : Config) (env : ResolveEnv) (prio : NodeAlias → Bool)
    (V : Verifier) (st : ServiceState) : Option GoErr × ServiceState × List (List Nat) :=
  match verifyBatchesGo cfg env prio V (firstPassState cfg st)
      (createBatches (firstPassState cfg st).heap
        (List.range (firstPassState cfg st).heap.length)) with
  | (some e, st₂) =>
    (some e.wrapped, st₂, [List.range (firstPassState cfg st).heap.length])
  | (none, st₂) =>
    ((verifySecondPhase cfg env prio V st₂).1,
      (verifySecondPhase cfg env prio V st₂).2.1,
      List.range (firstPassState cfg st).heap.length ::
        (verifySecondPhase cfg env prio V st₂).2.2)

end SegVerify

namespace RangedLoop

/-- `UUIDRange` from rangedloop: half-open interval over the 128-bit
identifier space; a `none` bound means unbounded on that side (`Start` and
`End` in the source). -/
structure UUIDRange where
  start : Option Nat
  stop : Option Nat
deriving DecidableEq, Repr

/-- Modelled from the spec: `CreateUUIDRanges` (rangedloop's provider.go is
not among the sources).  Spec §4.1: divide the 128-bit identifier space
into `nRanges` approximately equal contiguous intervals, the first
unbounded below and the last unbounded above, failing only on an invalid
count; the count parameter is a `uint32`, so the invalid count is zero. -/
def createUUIDRanges (nRanges : Nat) : Except SegVerify.GoErr (List UUIDRange) :=
  if nRanges = 0 then .error (.oops 0)
  else
    .ok ((List.range nRanges).map (fun i =>
      { start := if i = 0 then none else some (i * (2 ^ 128 / nRanges)),
        stop := if i = nRanges - 1 then none else some ((i + 1) * (2 ^ 128 / nRanges)) }))

/-- The fields a `MetabaseSegmentProvider` is constructed with by
`CreateRanges` (the shared `db` handle aside). -/
structure SegmentProviderData where
  uuidRange : UUIDRange
  asOfSystemTime : Nat
  batchSize : Int
deriving DecidableEq, Repr

/-- Go `uint32(n)` conversion of an `int`. -/
def uint32wrap (n : Int) : Nat := (n % 2 ^ 32).toNat

/-- `MetabaseRangeSplitter.CreateRanges` from providerdb.go: call
`CreateUUIDRanges(uint32(nRanges))`, propagate its error, take one
`asOfSystemTime := time.Now()` (the parameter `now`), and build one
provider per UUID range, all with that timestamp and the given batch
size. -/
def createRanges (nRanges : Int) (batchSize : Int) (now : Nat) :
    Except SegVerify.GoErr (List SegmentProviderData) :=
  match createUUIDRanges (uint32wrap nRanges) with
  | .error e => .error e
  | .ok uuidRanges =>
    .ok (uuidRanges.map (fun r =>
      { uuidRange := r, asOfSystemTime := now, batchSize := batchSize }))

/-- The batch-accumulation loop inside `MetabaseSegmentProvider.Iterate`
(the closure passed to `db.IterateLoopSegments`), translated row by row.
`rows` are the remaining rows the iterator will yield, `segments` is the
accumulator slice, and `k` counts the rows consumed so far; `ctxErr k` is
`ctx.Err()` at that iteration boundary.  The result is the returned error
(`none` = nil) together with the list of batches passed to `fn`, in
delivery order. -/
def iterateBody {α : Type} (batchSize : Nat) (fn : List α → Option SegVerify.GoErr)
    (ctxErr : Nat → Option SegVerify.GoErr) :
    List α → List α → Nat → Option SegVerify.GoErr × List (List α)
  | [], segments, _ =>
    if 0 < segments.length then (fn segments, [segments]) else (none, [])
  | row :: rest, segments, k =>
    match ctxErr k with
    | some e => (some e, [])
    | none =>
      let segments' := segments ++ [row]
      if batchSize ≤ segments'.length then
        match fn segments' with
        | some e => (some e, [segments'])
        | none =>
          let out := iterateBody batchSize fn ctxErr rest [] (k + 1)
          (out.1, segments' :: out.2)
      else iterateBody batchSize fn ctxErr rest segments' (k + 1)

/-- `MetabaseSegmentProvider.Iterate` over the finite row sequence the
underlying iterator yields for the bound range: start with an empty
accumulator and zero consumed rows. -/
def iterateSegments {α : Type} (batchSize : Nat) (fn : List α → Option SegVerify.GoErr)
    (ctxErr : Nat → Option SegVerify.GoErr) (rows : List α) :
    Option SegVerify.GoErr × List (List α) :=
  iterateBody batchSize fn ctxErr rows [] 0

end RangedLoop

namespace RangedLoop

theorem take_append_len {α : Type} :
    ∀ (A B : List α) (t : Nat), (A ++ B).take (A.length + t) = A ++ B.take t := by
  intro A
  induction A with
  | nil => intro B t; simp
  | cons a as ih =>
    intro B t
    rw [show (a :: as).length + t = (as.length + t) + 1 by simp; omega]
    simp [List.take_succ_cons, ih]

theorem mem_dropLast_cons {α : Type} {x b : α} {l : List α} (hb : b ∈ (x :: l).dropLast) :
    b = x ∨ b ∈ l.dropLast := by
  rcases l with _ | ⟨y, ys⟩
  · simp at hb
  · rw [List.dropLast_cons₂] at hb
    rcases List.mem_cons.mp hb with hb | hb
    · exact .inl hb
    · exact .inr hb

/-- With an error-free callback and no cancellation, the loop returns nil
and delivers batches whose concatenation is the accumulator followed by
the remaining rows; every delivered batch is nonempty and at most
`batchSize` long, and every batch but the last is exactly `batchSize`
long. -/
theorem iterateBody_clean {α : Type} (bs : Nat) (hbs : 1 ≤ bs) :
    ∀ (rows acc : List α) (k : Nat), acc.length < bs →
      (iterateBody bs (fun _ => none) (fun _ => none) rows acc k).1 = none ∧
      (iterateBody bs (fun _ => none) (fun _ => none) rows acc k).2.flatten = acc ++ rows ∧
      (∀ b ∈ (iterateBody bs (fun _ => none) (fun _ => none) rows acc k).2,
        b ≠ [] ∧ b.length ≤ bs) ∧
      (∀ b ∈ (iterateBody bs (fun _ => none) (fun _ => none) rows acc k).2.dropLast,
        b.length = bs) := by
  intro rows
  induction rows with
  | nil =>
    intro acc k hacc
    by_cases h0 : 0 < acc.length
    · have hres : iterateBody bs (fun _ => none) (fun _ => none) ([] : List α) acc k
          = (none, [acc]) := by
        simp [iterateBody, if_pos h0]
      rw [hres]
      refine ⟨rfl, by simp, ?_, by simp⟩
      intro b hb
      simp only [List.mem_singleton] at hb
      subst hb
      refine ⟨?_, le_of_lt hacc⟩
      intro h
      rw [h] at h0
      simp at h0
    · have hacc0 : acc = [] := List.length_eq_zero.mp (by omega)
      subst hacc0
      have hres : iterateBody bs (fun _ => none) (fun _ => none) ([] : List α) [] k
          = (none, []) := by
        simp [iterateBody]
      rw [hres]
      exact ⟨rfl, by simp, by simp, by simp⟩
  | cons row rest ih =>
    intro acc k hacc
    simp only [iterateBody]
    by_cases hflush : bs ≤ (acc ++ [row]).length
    · rw [if_pos hflush]
      have hlen : (acc ++ [row]).length = bs := by
        simp only [List.length_append, List.length_singleton] at hflush ⊢
        omega
      rcases ih [] (k + 1) (by simpa using hbs) with ⟨ih1, ih2, ih3, ih4⟩
      refine ⟨ih1, ?_, ?_, ?_⟩
      · rw [List.flatten_cons, ih2]
        simp
      · intro b hb
        rcases List.mem_cons.mp hb with hb | hb
        · subst hb
          exact ⟨by simp, le_of_eq hlen⟩
        · exact ih3 b hb
      · intro b hb
        rcases mem_dropLast_cons hb with hb | hb
        · subst hb; exact hlen
        · exact ih4 b hb
    · rw [if_neg hflush]
      have hlt : (acc ++ [row]).length < bs := by omega
      rcases ih (acc ++ [row]) (k + 1) hlt with ⟨ih1, ih2, ih3, ih4⟩
      exact ⟨ih1, by rw [ih2]; simp, ih3, ih4⟩

/-- C7: with an error-free callback and no cancellation, `Iterate` over a
finite row sequence succeeds and delivers the rows exactly once, in order:
the concatenation of the delivered batches is the row sequence, every
batch except possibly the last has exactly `batchSize` rows, and every
batch is nonempty with at most `batchSize` rows. -/
theorem claim7_iterate_batches_exact {α : Type} (bs : Nat) (rows : List α) (hbs : 1 ≤ bs) :
    (iterateSegments bs (fun _ => none) (fun _ => none) rows).1 = none ∧
    (iterateSegments bs (fun _ => none) (fun _ => none) rows).2.flatten = rows ∧
    (∀ b ∈ (iterateSegments bs (fun _ => none) (fun _ => none) rows).2,
      b ≠ [] ∧ b.length ≤ bs) ∧
    (∀ b ∈ (iterateSegments bs (fun _ => none) (fun _ => none) rows).2.dropLast,
      b.length = bs) := by
  have h := iterateBody_clean bs hbs rows [] 0 (by simpa using hbs)
  exact ⟨h.1, by simpa [iterateSegments] using h.2.1, h.2.2.1, h.2.2.2⟩

/-- Witness for C7: batch size 2 over five rows gives two full batches and
one final single-row batch. -/
theorem claim7_iterate_batches_exact_witness :
    1 ≤ 2 ∧
    (iterateSegments 2 (fun _ => none) (fun _ => none) [10, 20, 30, 40, 50]).1 = none ∧
    (iterateSegments 2 (fun _ => none) (fun _ => none) [10, 20, 30, 40, 50]).2.flatten =
      [10, 20, 30, 40, 50] ∧
    (∀ b ∈ (iterateSegments 2 (fun _ => none) (fun _ => none) [10, 20, 30, 40, 50]).2.dropLast,
      b.length = 2) :=
  ⟨by decide,
    (claim7_iterate_batches_exact 2 [10, 20, 30, 40, 50] (by decide)).1,
    (claim7_iterate_batches_exact 2 [10, 20, 30, 40, 50] (by decide)).2.1,
    (claim7_iterate_batches_exact 2 [10, 20, 30, 40, 50] (by decide)).2.2.2⟩

/-- Whatever the callback and the context do, the rows delivered by the
loop are a prefix of the accumulator followed by the remaining rows (or
nothing at all is delivered). -/
theorem iterateBody_join_take {α : Type} (bs : Nat) (fn : List α → Option SegVerify.GoErr)
    (ctx : Nat → Option SegVerify.GoErr) :
    ∀ (rows acc : List α) (k : Nat),
      (∃ m, (iterateBody bs fn ctx rows acc k).2.flatten = acc ++ rows.take m) ∨
      (iterateBody bs fn ctx rows acc k).2 = [] := by
  intro rows
  induction rows with
  | nil =>
    intro acc k
    by_cases h0 : 0 < acc.length
    · left
      refine ⟨0, ?_⟩
      simp [iterateBody, if_pos h0]
    · right
      simp [iterateBody, if_neg h0]
  | cons row rest ih =>
    intro acc k
    simp only [iterateBody]
    rcases hc : ctx k with _ | e
    · by_cases hflush : bs ≤ (acc ++ [row]).length
      · rw [if_pos hflush]
        rcases hf : fn (acc ++ [row]) with _ | e'
        · rcases ih [] (k + 1) with ⟨m, hm⟩ | hnil
          · left
            refine ⟨m + 1, ?_⟩
            simp only [List.flatten]
            rw [hm]
            simp [List.take_succ_cons]
          · left
            refine ⟨1, ?_⟩
            simp only [List.flatten]
            rw [hnil]
            simp [List.take_succ_cons]
        · left
          exact ⟨1, by simp [List.take_succ_cons]⟩
      · rw [if_neg hflush]
        rcases ih (acc ++ [row]) (k + 1) with ⟨m, hm⟩ | hnil
        · left
          refine ⟨m + 1, ?_⟩
          rw [hm]
          simp [List.take_succ_cons]
        · right
          exact hnil
    · right
      rfl

/-- If the callback returns an error on a delivered batch, that batch is
the last one delivered and its error is the loop's result. -/
theorem iterateBody_err_last {α : Type} (bs : Nat) (fn : List α → Option SegVerify.GoErr)
    (ctx : Nat → Option SegVerify.GoErr) :
    ∀ (rows acc : List α) (k : Nat),
      ∀ b ∈ (iterateBody bs fn ctx rows acc k).2, ∀ e, fn b = some e →
        (iterateBody bs fn ctx rows acc k).2.getLast? = some b ∧
        (iterateBody bs fn ctx rows acc k).1 = some e := by
  intro rows
  induction rows with
  | nil =>
    intro acc k b hb e hfb
    by_cases h0 : 0 < acc.length
    · simp only [iterateBody, if_pos h0] at hb ⊢
      simp only [List.mem_singleton] at hb
      subst hb
      exact ⟨by simp, by rw [hfb]⟩
    · simp [iterateBody, if_neg h0] at hb
  | cons row rest ih =>
    intro acc k b hb e hfb
    simp only [iterateBody] at hb ⊢
    rcases hc : ctx k with _ | e'
    · rw [hc] at hb
      dsimp only at hb ⊢
      by_cases hflush : bs ≤ (acc ++ [row]).length
      · rw [if_pos hflush] at hb ⊢
        rcases hf : fn (acc ++ [row]) with _ | e''
        · rw [hf] at hb
          dsimp only at hb ⊢
          rcases List.mem_cons.mp hb with hb | hb
          · subst hb
            rw [hfb] at hf
            exact absurd hf (by simp)
          · rcases ih [] (k + 1) b hb e hfb with ⟨hlast, herr⟩
            refine ⟨?_, herr⟩
            rcases hdel : (iterateBody bs fn ctx rest [] (k + 1)).2 with _ | ⟨d, ds⟩
            · rw [hdel] at hb
              exact absurd hb (List.not_mem_nil b)
            · rw [hdel] at hlast
              rw [List.getLast?_cons_cons]
              exact hlast
        · rw [hf] at hb
          dsimp only at hb ⊢
          simp only [List.mem_singleton] at hb
          subst hb
          rw [hfb] at hf
          have he : e = e'' := Option.some.inj hf
          subst he
          exact ⟨by simp, rfl⟩
      · rw [if_neg hflush] at hb ⊢
        exact ih (acc ++ [row]) (k + 1) b hb e hfb
    · rw [hc] at hb
      dsimp only at hb
      exact absurd hb (List.not_mem_nil b)

/-- If the context is cancelled from consumed-row count `ke` onward and the
callback never errors, the loop returns the context's error, and the rows
it delivered all lie before the cancellation point. -/
theorem iterateBody_cancel {α : Type} (bs : Nat) (fn : List α → Option SegVerify.GoErr)
    (hfn : ∀ b, fn b = none) (ke : Nat) (e : SegVerify.GoErr) :
    ∀ (rows acc : List α) (j : Nat), j ≤ ke → ke < j + rows.length →
      (iterateBody bs fn (fun t => if ke ≤ t then some e else none) rows acc j).1 = some e ∧
      ∃ m, (iterateBody bs fn (fun t => if ke ≤ t then some e else none) rows acc j).2.flatten =
        (acc ++ rows.take (ke - j)).take m := by
  intro rows
  induction rows with
  | nil =>
    intro acc j h1 h2
    simp at h2
    omega
  | cons row rest ih =>
    intro acc j h1 h2
    simp only [iterateBody]
    by_cases hj : ke ≤ j
    · rw [if_pos hj]
      exact ⟨rfl, 0, by simp⟩
    · rw [if_neg hj]
      have hjlt : j < ke := by omega
      have htake : (acc ++ [row]) ++ rest.take (ke - j - 1) = acc ++ (row :: rest).take (ke - j) := by
        rw [show ke - j = (ke - j - 1) + 1 by omega, List.take_succ_cons]
        simp
      by_cases hflush : bs ≤ (acc ++ [row]).length
      · rw [if_pos hflush, hfn (acc ++ [row])]
        rcases ih [] (j + 1) (by omega) (by simp at h2 ⊢; omega) with ⟨ih1, m, ihm⟩
        refine ⟨ih1, ?_⟩
        simp only [List.flatten]
        rw [ihm]
        simp only [List.nil_append]
        rw [show ke - (j + 1) = ke - j - 1 by omega]
        refine ⟨(acc ++ [row]).length + m, ?_⟩
        rw [← htake, take_append_len]
      · rw [if_neg hflush]
        rcases ih (acc ++ [row]) (j + 1) (by omega) (by simp at h2 ⊢; omega) with ⟨ih1, m, ihm⟩
        refine ⟨ih1, m, ?_⟩
        rw [ihm, show ke - (j + 1) = ke - j - 1 by omega, htake]

/-- C8: whatever the callback and the cancellation context do, the rows
`Iterate` delivers are a prefix of the input row sequence (so no batch is
ever delivered twice); a batch on which the callback returns an error is
the last batch delivered and its error is `Iterate`'s return value; and
when the context is cancelled after `ke` consumed rows (the callback
otherwise error-free), `Iterate` returns the context's error having
delivered only rows from before the cancellation point. -/
theorem claim8_iterate_abort {α : Type} (bs : Nat) (fn : List α → Option SegVerify.GoErr)
    (rows : List α) (ke : Nat) (e : SegVerify.GoErr)
    (hfn : ∀ b, fn b = none) (hke : ke < rows.length) :
    (∀ (fn' : List α → Option SegVerify.GoErr) (ctx' : Nat → Option SegVerify.GoErr),
      ∃ m, (iterateSegments bs fn' ctx' rows).2.flatten = rows.take m) ∧
    (∀ (fn' : List α → Option SegVerify.GoErr) (ctx' : Nat → Option SegVerify.GoErr),
      ∀ b ∈ (iterateSegments bs fn' ctx' rows).2, ∀ e', fn' b = some e' →
        (iterateSegments bs fn' ctx' rows).2.getLast? = some b ∧
        (iterateSegments bs fn' ctx' rows).1 = some e') ∧
    ((iterateSegments bs fn (fun t => if ke ≤ t then some e else none) rows).1 = some e ∧
      ∃ m, m ≤ ke ∧
        (iterateSegments bs fn (fun t => if ke ≤ t then some e else none) rows).2.flatten =
          rows.take m) := by
  refine ⟨?_, ?_, ?_⟩
  · intro fn' ctx'
    rcases iterateBody_join_take bs fn' ctx' rows [] 0 with ⟨m, hm⟩ | hnil
    · exact ⟨m, by simpa using hm⟩
    · exact ⟨0, by simp [iterateSegments, hnil]⟩
  · intro fn' ctx' b hb e' hfb
    exact iterateBody_err_last bs fn' ctx' rows [] 0 b hb e' hfb
  · rcases iterateBody_cancel bs fn hfn ke e rows [] 0 (by omega) (by omega) with ⟨h1, m, hm⟩
    refine ⟨h1, min m ke, by omega, ?_⟩
    rw [iterateSegments, hm]
    simp [List.take_take]

theorem uint32wrap_eq_zero_iff (n : Int) : uint32wrap n = 0 ↔ n % 2 ^ 32 = 0 := by
  unfold uint32wrap
  constructor
  · intro h
    have h2 : 0 ≤ n % 2 ^ 32 := Int.emod_nonneg n (by norm_num)
    omega
  · intro h
    rw [h]
    rfl

/-- C9 counterexample: the claim says `CreateRanges` succeeds for every
`nRanges ≥ 1`, but `nRanges = 2^32` is positive and still yields an error,
because the source converts `nRanges` with `uint32(nRanges)`, which wraps
`2^32` to zero before the zero-check. -/
theorem claim9_counterexample_pow32 :
    (1 : Int) ≤ 2 ^ 32 ∧ createRanges (2 ^ 32) 100 0 = .error (.oops 0) :=
  ⟨by norm_num, rfl⟩

/-- C9 (amended): `CreateRanges(nRanges, batchSize)` returns an error
exactly when the `uint32` conversion of `nRanges` is zero, i.e. when
`nRanges` is a multiple of `2^32` (in particular when it is zero); for
every other `nRanges` it succeeds, returning one provider per produced
UUID range, all bound to the same as-of timestamp and batch size. -/
theorem claim9_create_ranges_uint32 (nRanges batchSize : Int) (now : Nat) :
    ((∃ e, createRanges nRanges batchSize now = .error e) ↔ nRanges % 2 ^ 32 = 0) ∧
    (∀ providers, createRanges nRanges batchSize now = .ok providers →
      (∃ ranges, createUUIDRanges (uint32wrap nRanges) = .ok ranges ∧
        providers = ranges.map (fun r => ⟨r, now, batchSize⟩)) ∧
      ∀ p ∈ providers, p.asOfSystemTime = now ∧ p.batchSize = batchSize) := by
  by_cases h : uint32wrap nRanges = 0
  · have hcu : createUUIDRanges (uint32wrap nRanges) = .error (.oops 0) := by
      unfold createUUIDRanges
      rw [if_pos h]
    have hres : createRanges nRanges batchSize now = .error (.oops 0) := by
      unfold createRanges
      rw [hcu]
    constructor
    · constructor
      · intro _
        exact (uint32wrap_eq_zero_iff nRanges).mp h
      · intro _
        exact ⟨.oops 0, hres⟩
    · intro providers hp
      rw [hres] at hp
      cases hp
  · have hcu : createUUIDRanges (uint32wrap nRanges) =
        .ok ((List.range (uint32wrap nRanges)).map (fun i =>
          { start := if i = 0 then none
              else some (i * (2 ^ 128 / uint32wrap nRanges)),
            stop := if i = uint32wrap nRanges - 1 then none
              else some ((i + 1) * (2 ^ 128 / uint32wrap nRanges)) })) := by
      unfold createUUIDRanges
      rw [if_neg h]
    have hres : createRanges nRanges batchSize now =
        .ok (((List.range (uint32wrap nRanges)).map (fun i =>
          { start := if i = 0 then none
              else some (i * (2 ^ 128 / uint32wrap nRanges)),
            stop := if i = uint32wrap nRanges - 1 then none
              else some ((i + 1) * (2 ^ 128 / uint32wrap nRanges)) })).map
            (fun r => ⟨r, now, batchSize⟩)) := by
      unfold createRanges
      rw [hcu]
    constructor
    · constructor
      · rintro ⟨e, he⟩
        rw [hres] at he
        cases he
      · intro h0
        exact absurd ((uint32wrap_eq_zero_iff nRanges).mpr h0) h
    · intro providers hp
      rw [hres] at hp
      have heq := Except.ok.inj hp
      refine ⟨⟨_, hcu, heq.symm⟩, ?_⟩
      intro p hp2
      rw [← heq] at hp2
      rcases List.mem_map.mp hp2 with ⟨r, -, rfl⟩
      exact ⟨rfl, rfl⟩

/-- Witness for C9's amended theorem: `nRanges = 3` is not a multiple of
`2^32`, `CreateRanges` succeeds, and every provider it returns carries the
given timestamp and batch size. -/
theorem claim9_create_ranges_uint32_witness :
    ¬((3 : Int) % 2 ^ 32 = 0) ∧ ¬(∃ e, createRanges 3 100 7 = .error e) ∧
    ∀ providers, createRanges 3 100 7 = .ok providers →
      ∀ p ∈ providers, p.asOfSystemTime = 7 ∧ p.batchSize = 100 := by
  refine ⟨by decide, ?_, ?_⟩
  · intro hex
    exact absurd ((claim9_create_ranges_uint32 3 100 7).1.mp hex) (by decide)
  · intro providers hp
    exact ((claim9_create_ranges_uint32 3 100 7).2 providers hp).2

/-- Witness for C8: batch size 2 over five rows with cancellation after
three consumed rows (error-free callback) returns the context error. -/
theorem claim8_iterate_abort_witness :
    (∀ b : List Nat, (fun (_ : List Nat) => (none : Option SegVerify.GoErr)) b = none) ∧
    3 < [10, 20, 30, 40, 50].length ∧
    (iterateSegments 2 (fun _ => none)
      (fun t => if 3 ≤ t then some (.oops 7) else none) [10, 20, 30, 40, 50]).1 =
        some (.oops 7) :=
  ⟨fun _ => rfl, by decide,
    (claim8_iterate_abort 2 (fun _ => none) [10, 20, 30, 40, 50] 3 (.oops 7)
      (fun _ => rfl) (by decide)).2.2.1⟩

end RangedLoop

namespace SegVerify

theorem updateC_same (f : NodeAlias → Int) (a : NodeAlias) (v : Int) : updateC f a v a = v := by
  simp [updateC]

theorem updateC_other (f : NodeAlias → Int) (a x : NodeAlias) (v : Int) (h : x ≠ a) :
    updateC f a v x = f x := by
  simp [updateC, h]

theorem not_mem_removeAlias (l : List NodeAlias) (a : NodeAlias) : a ∉ removeAlias l a := by
  simp [removeAlias]

/-- A resolver state with all three caches empty. -/
def emptyResolver : ResolverState :=
  ⟨fun _ => none, fun _ => none, fun _ => none⟩

/-- Environment exhibiting the alias-refresh slip: the local alias map is
queried for alias 7, `LatestNodesAliasMap` succeeds (nil error) and its
table does contain alias 7, and the node directory knows node 42. -/
def refreshEnv : ResolveEnv :=
  { latestMap := fun a => if a = 7 then some 42 else none,
    latestErr := none,
    overlayGet := fun n => if n = 42 then .ok ⟨42, "addr42", "v1.0"⟩ else .error (.oops 9) }

/-- C1: the claim fails on the code.  For an alias that is neither in the
`aliasToNodeURL` cache nor in the local alias map, with the latest alias
table fetched successfully and containing the alias, `convertAliasToNodeURL`
returns the zero `storj.NodeURL` with a nil error (since `Error.Wrap(nil)`
is nil) and leaves the caches untouched — the refreshed table is never
consulted, because the inner `if !ok` guard re-tests the stale lookup flag
instead of the fetch error. -/
theorem claim1_convertAlias_nil_error_zero_url :
    convertAliasToNodeURL refreshEnv emptyResolver 7 = (zeroNodeURL, none, emptyResolver) ∧
    refreshEnv.latestMap 7 = some 42 ∧
    refreshEnv.latestErr = none :=
  ⟨rfl, rfl, rfl⟩

/-- C2: the node-health bookkeeping of `VerifyBatches`, for a positive
configured strike maximum and non-negative counters: an offline-classified
error with zero verified pieces removes the alias from the online set at
once; with a positive verified count it increments the strike counter and
removes the alias exactly when the counter reaches the maximum; a batch
without error decrements a positive counter by one, and no counter ever
becomes negative. -/
theorem claim2_offline_strike_policy (cfg : Config) (st : ServiceState) (a : NodeAlias)
    (count : Int) (err : Option VerifyErr)
    (hmax : 0 < cfg.maxOffline) (hnn : ∀ x, 0 ≤ st.offlineCount x) :
    (∀ e, err = some e → e.offline = true → count = 0 →
      (applyVerifyResult cfg st a count err).onlineNodes = removeAlias st.onlineNodes a ∧
      a ∉ (applyVerifyResult cfg st a count err).onlineNodes) ∧
    (∀ e, err = some e → e.offline = true → count ≠ 0 →
      (applyVerifyResult cfg st a count err).offlineCount a = st.offlineCount a + 1 ∧
      (applyVerifyResult cfg st a count err).onlineNodes =
        (if cfg.maxOffline ≤ st.offlineCount a + 1 then removeAlias st.onlineNodes a
         else st.onlineNodes)) ∧
    (err = none →
      (applyVerifyResult cfg st a count err).offlineCount a =
        (if 0 < st.offlineCount a then st.offlineCount a - 1 else st.offlineCount a)) ∧
    (∀ x, 0 ≤ (applyVerifyResult cfg st a count err).offlineCount x) := by
  refine ⟨?_, ?_, ?_, ?_⟩
  · intro e he hoff hc
    subst he
    simp [applyVerifyResult, hoff, hc, not_mem_removeAlias]
  · intro e he hoff hc
    subst he
    simp only [applyVerifyResult, hoff, hc, if_true, if_false, updateC_same]
    by_cases hth : cfg.maxOffline ≤ st.offlineCount a + 1
    · rw [if_pos ⟨hmax, hth⟩, if_pos hth]
      exact ⟨updateC_same _ _ _, rfl⟩
    · rw [if_neg (fun h => hth h.2), if_neg hth]
      exact ⟨updateC_same _ _ _, rfl⟩
  · intro he
    subst he
    simp only [applyVerifyResult]
    by_cases hpos : 0 < st.offlineCount a
    · rw [if_pos hpos, if_pos hpos]
      simp [updateC_same]
    · rw [if_neg hpos, if_neg hpos]
  · intro x
    rcases err with _ | e
    · simp only [applyVerifyResult]
      by_cases hpos : 0 < st.offlineCount a
      · rw [if_pos hpos]
        by_cases hx : x = a
        · subst hx; simp [updateC_same]; omega
        · simp [updateC_other _ _ _ _ hx]; exact hnn x
      · rw [if_neg hpos]; exact hnn x
    · simp only [applyVerifyResult]
      by_cases hoff : e.offline
      · rw [if_pos hoff]
        by_cases hc : count = 0
        · rw [if_pos hc]; exact hnn x
        · rw [if_neg hc]
          by_cases hx : x = a
          · subst hx
            split
            · simp [updateC_same]; have := hnn x; omega
            · simp [updateC_same]; have := hnn x; omega
          · split <;> simp [updateC_other _ _ _ _ hx] <;> exact hnn x
      · rw [if_neg hoff]; exact hnn x

/-- The health-state update leaves the resolution caches and the segment
heap untouched: it only rewrites `onlineNodes` and `offlineCount`. -/
theorem applyVerifyResult_resolver_heap (cfg : Config) (st : ServiceState) (a : NodeAlias)
    (count : Int) (err : Option VerifyErr) :
    (applyVerifyResult cfg st a count err).resolver = st.resolver ∧
    (applyVerifyResult cfg st a count err).heap = st.heap := by
  rcases err with _ | e
  · simp only [applyVerifyResult]
    split <;> exact ⟨rfl, rfl⟩
  · simp only [applyVerifyResult]
    by_cases hoff : e.offline = true
    · rw [if_pos hoff]
      by_cases hc : count = 0
      · rw [if_pos hc]; exact ⟨rfl, rfl⟩
      · rw [if_neg hc]; split <;> exact ⟨rfl, rfl⟩
    · rw [if_neg hoff]; exact ⟨rfl, rfl⟩

theorem mapIdxFrom_length {α : Type} (f : Nat → α → α) :
    ∀ (l : List α) (k : Nat), (mapIdxFrom f k l).length = l.length := by
  intro l
  induction l with
  | nil => intro k; rfl
  | cons x xs ih => intro k; simp [mapIdxFrom, ih]

theorem mapIdxFrom_get? {α : Type} (f : Nat → α → α) :
    ∀ (l : List α) (k i : Nat), (mapIdxFrom f k l).get? i = (l.get? i).map (f (k + i)) := by
  intro l
  induction l with
  | nil => intro k i; simp [mapIdxFrom]
  | cons x xs ih =>
    intro k i
    cases i with
    | zero => simp [mapIdxFrom]
    | succ j =>
      simp only [mapIdxFrom, List.get?_cons_succ, ih (k + 1) j]
      rw [show k + 1 + j = k + (j + 1) by omega]

theorem setRetries_length (heap : List Segment) (f : Nat → Int) :
    (setRetries heap f).length = heap.length :=
  mapIdxFrom_length _ heap 0

theorem setRetries_get? (heap : List Segment) (f : Nat → Int) (i : Nat) :
    (setRetries heap f).get? i = (heap.get? i).map (fun s => { s with retry := f i }) := by
  simpa using mapIdxFrom_get? (fun j s => { s with retry := f j }) heap 0 i

/-- The error component of `VerifyBatches` is exactly the first alias
resolution failure, whatever the verifier and the priority set do. -/
theorem verifyBatchesGo_err (cfg : Config) (env : ResolveEnv) (prio : NodeAlias → Bool)
    (V : Verifier) :
    ∀ (bs : List Batch) (st : ServiceState),
      (verifyBatchesGo cfg env prio V st bs).1 = resolveSequence env st.resolver bs := by
  intro bs
  induction bs with
  | nil => intro st; rfl
  | cons b rest ih =>
    intro st
    simp only [verifyBatchesGo, resolveSequence]
    rcases h : getNodeInfo env st.resolver b.nodeAlias with ⟨info, err, rs₁⟩
    rcases err with _ | e
    · simp only [ih]
      congr 1
      exact (applyVerifyResult_resolver_heap _ _ _ _ _).1
    · rfl

/-- `VerifyBatches` preserves the length of the heap and every segment's
`AliasPieces` list: only retry statuses and health state change. -/
theorem verifyBatchesGo_heap (cfg : Config) (env : ResolveEnv) (prio : NodeAlias → Bool)
    (V : Verifier) :
    ∀ (bs : List Batch) (st : ServiceState),
      (verifyBatchesGo cfg env prio V st bs).2.heap.length = st.heap.length ∧
      ∀ i, ((verifyBatchesGo cfg env prio V st bs).2.heap.get? i).map Segment.aliasPieces =
        (st.heap.get? i).map Segment.aliasPieces := by
  intro bs
  induction bs with
  | nil => intro st; exact ⟨rfl, fun i => rfl⟩
  | cons b rest ih =>
    intro st
    simp only [verifyBatchesGo]
    rcases h : getNodeInfo env st.resolver b.nodeAlias with ⟨info, err, rs₁⟩
    rcases err with _ | e
    · dsimp only
      constructor
      · rw [(ih _).1, (applyVerifyResult_resolver_heap _ _ _ _ _).2]
        exact setRetries_length _ _
      · intro i
        rw [(ih _).2 i, (applyVerifyResult_resolver_heap _ _ _ _ _).2]
        show ((setRetries st.heap _).get? i).map Segment.aliasPieces = _
        rw [setRetries_get?]
        rcases st.heap.get? i with _ | s <;> rfl
    · exact ⟨rfl, fun i => rfl⟩

/-- C4: `VerifyBatches` returns a non-nil error exactly when the sequential
`GetNodeInfo` resolution fails for some batch; the error it returns is
independent of the verifier and of the priority set, so verification
failures alone never make it return an error. -/
theorem claim4_verifyBatches_error_is_resolution_only (cfg : Config) (env : ResolveEnv)
    (prio prio' : NodeAlias → Bool) (V V' : Verifier) (st : ServiceState) (bs : List Batch) :
    (verifyBatchesGo cfg env prio V st bs).1 = resolveSequence env st.resolver bs ∧
    ((verifyBatchesGo cfg env prio V st bs).1 = none ↔
      resolveSequence env st.resolver bs = none) ∧
    (verifyBatchesGo cfg env prio V st bs).1 = (verifyBatchesGo cfg env prio' V' st bs).1 := by
  refine ⟨verifyBatchesGo_err cfg env prio V bs st, ?_, ?_⟩
  · rw [verifyBatchesGo_err cfg env prio V bs st]
  · rw [verifyBatchesGo_err cfg env prio V bs st, verifyBatchesGo_err cfg env prio' V' bs st]

/-- Fixed configuration for the witnesses: check count 2, strike maximum 3. -/
def cfgW : Config := ⟨2, 3⟩

/-- Fixed service state for the witnesses: empty caches, nodes 5 and 7
online, all strike counters zero, empty heap. -/
def stW : ServiceState := ⟨emptyResolver, [5, 7], fun _ => 0, []⟩

/-- Witness for C2 at a concrete input: strike maximum 3 is positive, all
counters are non-negative, and a zero-count offline error on alias 5 takes
it out of the online set. -/
theorem claim2_offline_strike_policy_witness :
    0 < cfgW.maxOffline ∧ (∀ x, 0 ≤ stW.offlineCount x) ∧
    (5 : NodeAlias) ∉ (applyVerifyResult cfgW stW 5 0 (some ⟨true, 0⟩)).onlineNodes :=
  ⟨by decide, fun _ => le_refl 0,
    ((claim2_offline_strike_policy cfgW stW 5 0 (some ⟨true, 0⟩) (by decide)
      (fun _ => le_refl 0)).1 ⟨true, 0⟩ rfl rfl rfl).2⟩

/-- C10: when the configured `MaxOffline` is not positive, an
offline-classified error with a nonzero verified count still increments the
strike counter but never changes the online set, and any change to the
online set can come only from an offline error with zero verified count. -/
theorem claim10_nonpositive_maxoffline (cfg : Config) (st : ServiceState) (a : NodeAlias)
    (count : Int) (err : Option VerifyErr) (hmax : cfg.maxOffline ≤ 0) :
    (∀ e, err = some e → e.offline = true → count ≠ 0 →
      (applyVerifyResult cfg st a count err).offlineCount a = st.offlineCount a + 1 ∧
      (applyVerifyResult cfg st a count err).onlineNodes = st.onlineNodes) ∧
    ((applyVerifyResult cfg st a count err).onlineNodes ≠ st.onlineNodes →
      ∃ e, err = some e ∧ e.offline = true ∧ count = 0) := by
  constructor
  · intro e he hoff hc
    subst he
    simp only [applyVerifyResult, hoff, if_true]
    rw [if_neg hc, if_neg (by intro h; exact absurd h.1 (by omega))]
    simp [updateC_same]
  · intro hch
    rcases err with _ | e
    · exfalso
      apply hch
      simp only [applyVerifyResult]
      split <;> rfl
    · by_cases hoff : e.offline
      · by_cases hc : count = 0
        · exact ⟨e, rfl, hoff, hc⟩
        · exfalso
          apply hch
          simp only [applyVerifyResult, hoff, if_true]
          rw [if_neg hc, if_neg (by intro h; exact absurd h.1 (by omega))]
      · exfalso
        apply hch
        simp only [applyVerifyResult]
        rw [if_neg (by simpa using hoff)]

theorem int32wrap_eq (n : Int) (h1 : -2 ^ 31 ≤ n) (h2 : n < 2 ^ 31) : int32wrap n = n := by
  unfold int32wrap
  omega

/-- C5: the retry-budget initialisation at the top of `Verify` sets every
segment's `Status.Retry` to the configured check count when that count is
nonzero, and to the length of the segment's `AliasPieces` list when the
count is zero (for values representable in `int32`). -/
theorem claim5_retry_budget_initialisation (check : Int) (heap : List Segment) (i : Nat)
    (s : Segment) (hc1 : -2 ^ 31 ≤ check) (hc2 : check < 2 ^ 31)
    (hl : ∀ t ∈ heap, (t.aliasPieces.length : Int) < 2 ^ 31)
    (hget : heap.get? i = some s) :
    (initRetries check heap).get? i =
      some { s with retry := if check = 0 then (s.aliasPieces.length : Int) else check } := by
  unfold initRetries
  rw [List.get?_map, hget]
  simp only [Option.map_some']
  have hb : -2 ^ 31 ≤ (if check = 0 then (s.aliasPieces.length : Int) else check) ∧
      (if check = 0 then (s.aliasPieces.length : Int) else check) < 2 ^ 31 := by
    split
    · exact ⟨by omega, hl s (List.get?_mem hget)⟩
    · exact ⟨hc1, hc2⟩
  rw [int32wrap_eq _ hb.1 hb.2]

/-- Witness for C5: a one-segment heap with two pieces, check count 0, so
the budget becomes the piece count 2. -/
theorem claim5_retry_budget_initialisation_witness :
    (-2 ^ 31 ≤ (0 : Int)) ∧ ((0 : Int) < 2 ^ 31) ∧
    (initRetries 0 [⟨[⟨5, 0⟩, ⟨6, 1⟩], 9⟩]).get? 0 =
      some { aliasPieces := [⟨5, 0⟩, ⟨6, 1⟩], retry := (([⟨5, 0⟩, ⟨6, 1⟩] : List AliasPiece).length : Int) } :=
  ⟨by decide, by decide, by
    have h := claim5_retry_budget_initialisation 0 [⟨[⟨5, 0⟩, ⟨6, 1⟩], 9⟩] 0
      ⟨[⟨5, 0⟩, ⟨6, 1⟩], 9⟩ (by decide) (by decide)
      (by intro t ht; simp at ht; subst ht; decide) rfl
    rw [h]; decide⟩

theorem initRetries_length (check : Int) (heap : List Segment) :
    (initRetries check heap).length = heap.length := by
  simp [initRetries]

theorem prepRetryHeap_get? (prio : NodeAlias → Bool) (heap : List Segment) (idxs : List Nat)
    (i : Nat) :
    (prepRetryHeap prio heap idxs).get? i =
      (heap.get? i).map (fun s => if idxs.contains i then prepRetrySegment prio s else s) := by
  simpa [prepRetryHeap] using
    mapIdxFrom_get? (fun j s => if idxs.contains j then prepRetrySegment prio s else s) heap 0 i

theorem prepRetryHeap_length (prio : NodeAlias → Bool) (heap : List Segment) (idxs : List Nat) :
    (prepRetryHeap prio heap idxs).length = heap.length :=
  mapIdxFrom_length _ heap 0

/-- Environment whose alias-table fetch and node-directory lookups all
fail. -/
def failEnv : ResolveEnv :=
  { latestMap := fun _ => none, latestErr := some (.oops 1),
    overlayGet := fun _ => .error (.oops 2) }

/-- Empty priority set. -/
def prioNone : NodeAlias → Bool := fun _ => false

/-- A verifier oracle that leaves retry budgets alone and reports zero
verified pieces with no error. -/
def trivialVerifier : Verifier := fun _ _ _ _ r => (r, 0, none)

/-- Service state holding a single one-piece segment. -/
def oneSegState : ServiceState := ⟨emptyResolver, [], fun _ => 0, [⟨[⟨5, 0⟩], 0⟩]⟩

/-- The pass trace of the second phase is either empty or the single
retry-index list. -/
theorem verifySecondPhase_passes (cfg : Config) (env : ResolveEnv) (prio : NodeAlias → Bool)
    (V : Verifier) (st₂ : ServiceState) :
    (verifySecondPhase cfg env prio V st₂).2.2 = [] ∨
    (verifySecondPhase cfg env prio V st₂).2.2 = [retryIndices st₂] := by
  unfold verifySecondPhase
  split
  · exact .inl rfl
  · split
    · exact .inl rfl
    · exact .inr rfl

/-- C3: `Verify` submits segments to batching and verification at most
twice: the first pass covers exactly the indices of all input segments,
and any later pass covers a subset of them — there is never a third
pass, whatever the configuration, the oracles and the outcome of
verification. -/
theorem claim3_at_most_two_passes (cfg : Config) (env : ResolveEnv) (prio : NodeAlias → Bool)
    (V : Verifier) (st : ServiceState) :
    (verifyGo cfg env prio V st).2.2.length ≤ 2 ∧
    (verifyGo cfg env prio V st).2.2.head? = some (List.range st.heap.length) ∧
    ∀ t ∈ (verifyGo cfg env prio V st).2.2.tail, List.Sublist t (List.range st.heap.length) := by
  unfold verifyGo
  split
  next e st₂ heq =>
    exact ⟨by simp, by simp [firstPassState, initRetries_length], by simp⟩
  next st₂ heq =>
    have h2 := (verifyBatchesGo_heap cfg env prio V
      (createBatches (firstPassState cfg st).heap
        (List.range (firstPassState cfg st).heap.length))
      (firstPassState cfg st)).1
    rw [heq] at h2
    have hlen₂ : st₂.heap.length = st.heap.length := by
      simpa [firstPassState, initRetries_length] using h2
    rcases verifySecondPhase_passes cfg env prio V st₂ with h | h <;> rw [h]
    · exact ⟨by simp, by simp [firstPassState, initRetries_length], by simp⟩
    · refine ⟨by simp, by simp [firstPassState, initRetries_length], ?_⟩
      intro t ht
      simp only [List.tail_cons, List.mem_singleton] at ht
      subst ht
      rw [retryIndices, hlen₂]
      exact List.filter_sublist _

/-- Witness for C3 at a concrete input: a one-segment run with an immediate
resolution failure performs exactly one pass over segment index 0. -/
theorem claim3_at_most_two_passes_witness :
    (verifyGo cfgW failEnv prioNone trivialVerifier oneSegState).2.2.length ≤ 2 ∧
    (verifyGo cfgW failEnv prioNone trivialVerifier oneSegState).2.2.head? =
      some (List.range oneSegState.heap.length) ∧
    ∀ t ∈ (verifyGo cfgW failEnv prioNone trivialVerifier oneSegState).2.2.tail,
      List.Sublist t (List.range oneSegState.heap.length) :=
  claim3_at_most_two_passes cfgW failEnv prioNone trivialVerifier oneSegState

/-- C6: after a clean first pass, `Verify` runs a second pass exactly when
some segment still has a positive retry budget and the configured check
count is positive; the only list of segment indices it re-batches is the
retry-index list (so segments with `Status.Retry ≤ 0` are never
re-batched), every re-batched index has a positive retry budget, and
before the second pass each retry-eligible segment's piece list is
replaced by the reverse of its post-first-pass order with priority-node
pieces removed. -/
theorem claim6_second_pass_preparation (cfg : Config) (env : ResolveEnv)
    (prio : NodeAlias → Bool) (V : Verifier) (st₂ : ServiceState) :
    ((verifySecondPhase cfg env prio V st₂).2.2 ≠ [] ↔
      (0 < cfg.check ∧ ∃ i ∈ List.range st₂.heap.length, 0 < retriesOf st₂.heap i)) ∧
    ((verifySecondPhase cfg env prio V st₂).2.2 = [] ∨
      (verifySecondPhase cfg env prio V st₂).2.2 = [retryIndices st₂]) ∧
    (∀ t ∈ (verifySecondPhase cfg env prio V st₂).2.2, ∀ i ∈ t, 0 < retriesOf st₂.heap i) ∧
    ((verifySecondPhase cfg env prio V st₂).2.2 ≠ [] →
      ∀ i s, st₂.heap.get? i = some s → 0 < s.retry →
        ((verifySecondPhase cfg env prio V st₂).2.1.heap.get? i).map Segment.aliasPieces =
          some ((s.aliasPieces.reverse).filter (fun p => prio p.nodeAlias = false))) := by
  by_cases hemp : (retryIndices st₂).isEmpty
  · have hres : verifySecondPhase cfg env prio V st₂ = (none, st₂, []) := by
      unfold verifySecondPhase
      rw [if_pos hemp]
    rw [hres]
    refine ⟨?_, .inl rfl, by simp, by simp⟩
    constructor
    · intro h
      exact absurd rfl h
    · rintro ⟨-, i, hir, hpos⟩
      exfalso
      have hm : i ∈ retryIndices st₂ := List.mem_filter.mpr ⟨hir, by simpa using hpos⟩
      rw [List.isEmpty_iff] at hemp
      rw [hemp] at hm
      exact absurd hm (List.not_mem_nil i)
  · by_cases hchk : cfg.check ≤ 0
    · have hres : verifySecondPhase cfg env prio V st₂ = (none, st₂, []) := by
        unfold verifySecondPhase
        rw [if_neg hemp, if_pos hchk]
      rw [hres]
      refine ⟨?_, .inl rfl, by simp, by simp⟩
      constructor
      · intro h
        exact absurd rfl h
      · rintro ⟨hpos, -⟩
        omega
    · have hres : verifySecondPhase cfg env prio V st₂ =
          (errWrap (verifyBatchesGo cfg env prio V (prepState prio st₂)
              (createBatches (prepState prio st₂).heap (retryIndices st₂))).1,
            (verifyBatchesGo cfg env prio V (prepState prio st₂)
              (createBatches (prepState prio st₂).heap (retryIndices st₂))).2,
            [retryIndices st₂]) := by
        unfold verifySecondPhase
        rw [if_neg hemp, if_neg hchk]
      rw [hres]
      refine ⟨⟨fun _ => ⟨by omega, ?_⟩, fun _ => by simp⟩, .inr rfl, ?_, ?_⟩
      · have hne : retryIndices st₂ ≠ [] := by
          intro h
          rw [h] at hemp
          exact hemp rfl
        rcases List.exists_mem_of_ne_nil _ hne with ⟨i, hi⟩
        rcases List.mem_filter.mp hi with ⟨hir, hdec⟩
        exact ⟨i, hir, by simpa using hdec⟩
      · intro t ht i hi
        simp only [List.mem_singleton] at ht
        subst ht
        rcases List.mem_filter.mp hi with ⟨-, hdec⟩
        simpa using hdec
      · intro _ i s hget hpos
        have hlt : i < st₂.heap.length := by
          rcases List.get?_eq_some.mp hget with ⟨h, -⟩
          exact h
        have hmem : i ∈ retryIndices st₂ := by
          refine List.mem_filter.mpr ⟨List.mem_range.mpr hlt, ?_⟩
          simp only [retriesOf, hget, Option.map_some', Option.getD_some]
          simpa using hpos
        have hpieces := (verifyBatchesGo_heap cfg env prio V
          (createBatches (prepState prio st₂).heap (retryIndices st₂)) (prepState prio st₂)).2 i
        dsimp only
        rw [hpieces]
        show ((prepRetryHeap prio st₂.heap (retryIndices st₂)).get? i).map Segment.aliasPieces = _
        rw [prepRetryHeap_get?, hget]
        simp only [Option.map_some']
        rw [if_pos (by simpa using hmem)]
        rfl

/-- Priority set containing exactly alias 5. -/
def prio5 : NodeAlias → Bool := fun a => decide (a = 5)

/-- Service state after a first pass that left one segment with pieces on
aliases 5 and 6 and a remaining retry budget of 1. -/
def stR : ServiceState := ⟨emptyResolver, [], fun _ => 0, [⟨[⟨5, 0⟩, ⟨6, 1⟩], 1⟩]⟩

/-- Witness for C6 at a concrete input: a second pass happens, and the
retried segment's piece list becomes its reverse with the priority alias 5
stripped, leaving only the piece on alias 6. -/
theorem claim6_second_pass_preparation_witness :
    (verifySecondPhase cfgW failEnv prio5 trivialVerifier stR).2.2 ≠ [] ∧
    ((verifySecondPhase cfgW failEnv prio5 trivialVerifier stR).2.1.heap.get? 0).map
      Segment.aliasPieces = some [⟨6, 1⟩] := by
  have h := claim6_second_pass_preparation cfgW failEnv prio5 trivialVerifier stR
  have h1 : (verifySecondPhase cfgW failEnv prio5 trivialVerifier stR).2.2 ≠ [] :=
    h.1.mpr ⟨by decide, 0, by decide, by decide⟩
  refine ⟨h1, ?_⟩
  have h4 := h.2.2.2 h1 0 ⟨[⟨5, 0⟩, ⟨6, 1⟩], 1⟩ rfl (by decide)
  rw [h4]
  decide

/-- Configuration with retries disabled-style strike maximum zero. -/
def cfgW0 : Config := ⟨2, 0⟩

/-- Witness for C10 at a concrete input: with strike maximum 0, an offline
error on alias 5 with one verified piece bumps the counter to 1 and leaves
the online set alone. -/
theorem claim10_nonpositive_maxoffline_witness :
    cfgW0.maxOffline ≤ 0 ∧
    (applyVerifyResult cfgW0 stW 5 1 (some ⟨true, 0⟩)).offlineCount 5 = stW.offlineCount 5 + 1 ∧
    (applyVerifyResult cfgW0 stW 5 1 (some ⟨true, 0⟩)).onlineNodes = stW.onlineNodes :=
  ⟨by decide,
    (claim10_nonpositive_maxoffline cfgW0 stW 5 1 (some ⟨true, 0⟩) (by decide)).1
      ⟨true, 0⟩ rfl rfl (by decide)⟩

end SegVerify
